import Mathlib

/-!
Verification development for the investment-adjuster repository.

The program stores dollar amounts and percents as 32-bit floats
(`type Dollar = f32`, `type Percent = f32` in `lib.rs`).  This embedding
models them as exact rationals so that the algebraic claims about the
allocation engine can be settled exactly; every definition below is a
direct translation of the corresponding Rust item.
-/

namespace InvestmentAdjuster

/-- Dollar amounts, `type Dollar = f32` in `lib.rs`, modelled exactly. -/
abbrev Dollar : Type := ℚ

/-- Percent values, `type Percent = f32` in `lib.rs`, modelled exactly. -/
abbrev Percent : Type := ℚ

/-- Action variants from `lib.rs`. -/
inductive Action : Type where
  | Nothing : Action
  | Ignore : Action
  | Sell : Dollar → Action
  | Buy : Dollar → Action

deriving instance DecidableEq, Repr for Action

/-- Position from `portfolio.rs`. -/
structure Position : Type where
  symbol : String
  current_value : Dollar
  is_core : Bool
  ignored : Bool

deriving instance DecidableEq, Repr for Position

/-- AccountBalance from `portfolio.rs`. -/
structure AccountBalance : Type where
  account_number : String
  positions : List Position

deriving instance DecidableEq, Repr for AccountBalance

/-- CorePosition from `target.rs`. -/
structure CorePosition : Type where
  symbol : String
  minimum : Dollar

deriving instance DecidableEq, Repr for CorePosition

/-- AllocationTargets from `target.rs`; the `targets` HashMap is modelled as
an association list whose keys are unique for every value the program
actually builds. -/
structure AllocationTargets : Type where
  account_number : String
  core_position : CorePosition
  targets : List (String × Percent)

deriving instance DecidableEq, Repr for AllocationTargets

/-- PositionAdjustment from `target.rs`. -/
structure PositionAdjustment : Type where
  current_value : Dollar
  target : Percent
  ignored : Bool

deriving instance DecidableEq, Repr for PositionAdjustment

/-- Error cases of `adjust_allocations` and the builder, in the order the
source can produce them (each `bail!`/`anyhow!` site gets one tag). -/
inductive AdjustError : Type where
  | coreNotFound : AdjustError
  | coreNotMarked : AdjustError
  | coreInTargets : AdjustError
  | ignoredTarget : String → AdjustError
  | insufficientFunds : AdjustError

deriving instance DecidableEq, Repr for AdjustError

/-- Error of AllocationTargetsBuilder validation in `target.rs`. -/
inductive BuildError : Type where
  | targetsDoNotSumTo100 : BuildError

deriving instance DecidableEq, Repr for BuildError

deriving instance DecidableEq for Except

/-- ASCII lower-casing of one character, as used byte-wise by the Rust
`eq_ignore_ascii_case`. -/
def asciiLower (c : Char) : Char :=
  if 'A' ≤ c ∧ c ≤ 'Z' then Char.ofNat (c.toNat + 32) else c

/-- Case-insensitive ASCII string comparison, `str::eq_ignore_ascii_case`. -/
def eqIgnoreAsciiCase (a b : String) : Bool :=
  a.data.map asciiLower == b.data.map asciiLower

/-- AccountBalance::set_ignored from `portfolio.rs`: every position whose
symbol case-insensitively matches an entry of the list gets
`ignored := true`; the loop touches nothing else and cannot fail. -/
def AccountBalance.set_ignored (b : AccountBalance) (ignored : List String) :
    AccountBalance :=
  { b with
    positions := b.positions.map fun pos =>
      if ignored.any fun i => eqIgnoreAsciiCase i pos.symbol then
        { pos with ignored := true }
      else pos }

/-- HashMap `entry(k).and_modify(f).or_insert(v)` on an association list with
unique keys: modify the entry for `k` when present, append `(k, v)` when
absent. -/
def updateOrInsert (m : List (String × PositionAdjustment)) (k : String)
    (f : PositionAdjustment → PositionAdjustment) (v : PositionAdjustment) :
    List (String × PositionAdjustment) :=
  match m with
  | [] => [(k, v)]
  | e :: rest =>
    if e.1 = k then (e.1, f e.2) :: rest else e :: updateOrInsert rest k f v

/-- One step of the first merge loop of `adjust_allocations` (target.rs
lines 64-73): a target symbol gets its declared percent, with current value
0 as a default. -/
def targetStep (m : List (String × PositionAdjustment)) (t : String × Percent) :
    List (String × PositionAdjustment) :=
  updateOrInsert m t.1 (fun e => { e with target := t.2 })
    { current_value := 0, target := t.2, ignored := false }

/-- One step of the second merge loop of `adjust_allocations` (target.rs
lines 74-83): a holding overwrites the current value; only when the symbol
is new does the entry also record the holding's ignored flag. -/
def positionStep (m : List (String × PositionAdjustment)) (pos : Position) :
    List (String × PositionAdjustment) :=
  updateOrInsert m pos.symbol (fun e => { e with current_value := pos.current_value })
    { current_value := pos.current_value, target := 0, ignored := pos.ignored }

/-- The working map of `adjust_allocations` (target.rs lines 63-83). -/
def buildAdjustments (targets : List (String × Percent))
    (positions : List Position) : List (String × PositionAdjustment) :=
  positions.foldl positionStep (targets.foldl targetStep [])

/-- Sum of the current values of the non-ignored entries (target.rs lines
91-100). -/
def totalValue (adjustments : List (String × PositionAdjustment)) : Dollar :=
  ((adjustments.filter fun e => !e.2.ignored).map fun e => e.2.current_value).sum

/-- Per-symbol action selection of `adjust_allocations` (target.rs lines
110-128). -/
def positionAction (self : AllocationTargets) (to_distribute : Dollar)
    (symbol : String) (adj : PositionAdjustment) : Action :=
  if adj.ignored then Action.Ignore
  else if symbol = self.core_position.symbol then
    if self.core_position.minimum < adj.current_value then
      Action.Sell (adj.current_value - self.core_position.minimum)
    else if adj.current_value < self.core_position.minimum then
      Action.Buy (self.core_position.minimum - adj.current_value)
    else Action.Nothing
  else
    let val := to_distribute * (adj.target / 100) - adj.current_value
    if 0 < val then Action.Buy (abs val)
    else if val < 0 then Action.Sell (abs val)
    else Action.Nothing

/-- The action list a successful run of `adjust_allocations` returns
(target.rs lines 108-131). -/
def adjustActions (self : AllocationTargets) (balance : AccountBalance) :
    List (String × Action) :=
  (buildAdjustments self.targets balance.positions).map fun e =>
    (e.1,
      positionAction self
        (totalValue (buildAdjustments self.targets balance.positions)
          - self.core_position.minimum)
        e.1 e.2)

/-- AllocationTargets::adjust_allocations from `target.rs`. -/
def AllocationTargets.adjust_allocations (self : AllocationTargets)
    (balance : AccountBalance) : Except AdjustError (List (String × Action)) :=
  match balance.positions.find? (fun pos =>
      pos.symbol == self.core_position.symbol
        && balance.account_number == self.account_number) with
  | none => Except.error AdjustError.coreNotFound
  | some core =>
    if !core.is_core then Except.error AdjustError.coreNotMarked
    else if self.targets.any fun t => t.1 == core.symbol then
      Except.error AdjustError.coreInTargets
    else
      match (buildAdjustments self.targets balance.positions).find?
          (fun e => e.2.ignored && !(decide (e.2.target = 0))) with
      | some e => Except.error (AdjustError.ignoredTarget e.1)
      | none =>
        if totalValue (buildAdjustments self.targets balance.positions)
            - self.core_position.minimum < 0 then
          Except.error AdjustError.insufficientFunds
        else Except.ok (adjustActions self balance)

/-- AllocationTargetsBuilder from `target.rs`. -/
structure AllocationTargetsBuilder : Type where
  account_number : String
  core_position : CorePosition
  allocations : List (String × Percent)

/-- AllocationTargetsBuilder::validate from `target.rs` lines 158-166. -/
def AllocationTargetsBuilder.validate (b : AllocationTargetsBuilder) :
    Except BuildError Unit :=
  if (b.allocations.map fun t => t.2).sum = 100 then Except.ok ()
  else Except.error BuildError.targetsDoNotSumTo100

/-- AllocationTargetsBuilder::build / try_into from `target.rs`. -/
def AllocationTargetsBuilder.build (b : AllocationTargetsBuilder) :
    Except BuildError AllocationTargets :=
  match b.validate with
  | Except.error e => Except.error e
  | Except.ok _ =>
    Except.ok
      { account_number := b.account_number
        core_position := b.core_position
        targets := b.allocations }

/-- Success test for the builder. -/
def buildOk (b : AllocationTargetsBuilder) : Bool :=
  match b.build with
  | Except.ok _ => true
  | Except.error _ => false

/-- Current value a symbol contributes during the merge: the value of the
first holding with that symbol, or 0 when absent. -/
def currentOf (poss : List Position) (s : String) : Dollar :=
  match poss.find? fun p => p.symbol == s with
  | some p => p.current_value
  | none => 0

/-- Effect of the whole positions loop on one already-present entry: only
`current_value` is overwritten; `target` and `ignored` are kept. -/
def applyPositions (poss : List Position) (e : String × PositionAdjustment) :
    String × PositionAdjustment :=
  match poss.find? fun p => p.symbol == e.1 with
  | some p => (e.1, { e.2 with current_value := p.current_value })
  | none => e

theorem updateOrInsert_of_not_mem (m : List (String × PositionAdjustment))
    (k : String) (f : PositionAdjustment → PositionAdjustment)
    (v : PositionAdjustment) (h : k ∉ m.map Prod.fst) :
    updateOrInsert m k f v = m ++ [(k, v)] := by
  induction m with
  | nil => rfl
  | cons e rest ih =>
    simp only [List.map_cons, List.mem_cons, not_or] at h
    simp only [updateOrInsert]
    rw [if_neg (fun hh => h.1 hh.symm), ih h.2, List.cons_append]

theorem updateOrInsert_of_nodup_mem (m : List (String × PositionAdjustment))
    (k : String) (f : PositionAdjustment → PositionAdjustment)
    (v : PositionAdjustment) (hnd : (m.map Prod.fst).Nodup)
    (h : k ∈ m.map Prod.fst) :
    updateOrInsert m k f v =
      m.map fun e => if e.1 = k then (e.1, f e.2) else e := by
  induction m with
  | nil => simp at h
  | cons e rest ih =>
    simp only [List.map_cons, List.nodup_cons] at hnd
    by_cases he : e.1 = k
    · have hrest : rest.map (fun x => if x.1 = k then (x.1, f x.2) else x) = rest := by
        have : ∀ x ∈ rest, (if x.1 = k then (x.1, f x.2) else x) = x := by
          intro x hx
          rw [if_neg]
          intro hxk
          exact hnd.1 (by rw [he, ← hxk]; exact List.mem_map_of_mem Prod.fst hx)
        calc rest.map (fun x => if x.1 = k then (x.1, f x.2) else x)
            = rest.map id := List.map_congr_left this
          _ = rest := List.map_id rest
      simp only [updateOrInsert, if_pos he, List.map_cons, hrest]
    · have hk : k ∈ rest.map Prod.fst := by
        rcases List.mem_cons.mp h with h1 | h1
        · exact absurd h1.symm he
        · exact h1
      simp only [updateOrInsert, if_neg he, List.map_cons, if_neg he,
        ih hnd.2 hk]

theorem updateOrInsert_pres (R : String × PositionAdjustment → Prop)
    (k : String) (f : PositionAdjustment → PositionAdjustment)
    (v : PositionAdjustment) (hf : ∀ s a, R (s, a) → R (s, f a)) (hv : R (k, v)) :
    ∀ m, (∀ e ∈ m, R e) → ∀ e ∈ updateOrInsert m k f v, R e := by
  intro m
  induction m with
  | nil =>
    intro _ e he
    simp only [updateOrInsert, List.mem_singleton] at he
    exact he ▸ hv
  | cons e0 rest ih =>
    intro hm e he
    simp only [updateOrInsert] at he
    by_cases h : e0.1 = k
    · rw [if_pos h] at he
      rcases List.mem_cons.mp he with rfl | hmem
      · exact hf _ _ (hm e0 (List.mem_cons_self _ _))
      · exact hm _ (List.mem_cons_of_mem _ hmem)
    · rw [if_neg h] at he
      rcases List.mem_cons.mp he with rfl | hmem
      · exact hm _ (List.mem_cons_self _ _)
      · exact ih (fun x hx => hm x (List.mem_cons_of_mem _ hx)) e hmem

theorem foldl_entry_inv {α : Type}
    (step : List (String × PositionAdjustment) → α →
      List (String × PositionAdjustment))
    (R : String × PositionAdjustment → Prop)
    (hstep : ∀ m a, (∀ e ∈ m, R e) → ∀ e ∈ step m a, R e) :
    ∀ (l : List α) (m), (∀ e ∈ m, R e) → ∀ e ∈ l.foldl step m, R e := by
  intro l
  induction l with
  | nil => intro m hm; simpa using hm
  | cons a l ih => intro m hm; exact ih _ (hstep m a hm)

theorem foldTargets_ignored_false (tgts : List (String × Percent)) :
    ∀ e ∈ tgts.foldl targetStep [], e.2.ignored = false := by
  apply foldl_entry_inv targetStep (fun e => e.2.ignored = false)
  · intro m t hm
    exact updateOrInsert_pres (fun e => e.2.ignored = false) t.1
      (fun e => { e with target := t.2 })
      { current_value := 0, target := t.2, ignored := false }
      (fun s a ha => ha) rfl m hm
  · intro e he
    simp at he

/-- Invariant making the ignored-target check of `adjust_allocations`
unreachable: every working-map entry with `ignored = true` was inserted by
the positions loop with `target = 0`, and nothing afterwards changes either
field. -/
theorem buildAdjustments_ignored_target (tgts : List (String × Percent))
    (poss : List Position) :
    ∀ e ∈ buildAdjustments tgts poss, e.2.ignored = true → e.2.target = 0 := by
  unfold buildAdjustments
  apply foldl_entry_inv positionStep (fun e => e.2.ignored = true → e.2.target = 0)
  · intro m pos hm
    exact updateOrInsert_pres (fun e => e.2.ignored = true → e.2.target = 0)
      pos.symbol (fun e => { e with current_value := pos.current_value })
      { current_value := pos.current_value, target := 0, ignored := pos.ignored }
      (fun s a ha => ha) (fun _ => rfl) m hm
  · intro e he hig
    rw [foldTargets_ignored_false tgts e he] at hig
    exact absurd hig (by simp)

theorem foldl_targetStep_eq (tgts : List (String × Percent)) :
    ∀ m : List (String × PositionAdjustment),
      (∀ t ∈ tgts, t.1 ∉ m.map Prod.fst) → (tgts.map Prod.fst).Nodup →
      tgts.foldl targetStep m =
        m ++ tgts.map fun t =>
          (t.1, { current_value := 0, target := t.2, ignored := false }) := by
  induction tgts with
  | nil => intro m _ _; simp
  | cons t rest ih =>
    intro m hdis hnd
    simp only [List.map_cons, List.nodup_cons] at hnd
    have hstep : targetStep m t =
        m ++ [(t.1, { current_value := 0, target := t.2, ignored := false })] :=
      updateOrInsert_of_not_mem m t.1 _ _ (hdis t (List.mem_cons_self _ _))
    have hdis2 : ∀ r ∈ rest, r.1 ∉ (targetStep m t).map Prod.fst := by
      intro r hr
      rw [hstep]
      simp only [List.map_append, List.mem_append, List.map_cons, List.map_nil,
        List.mem_singleton, not_or]
      refine ⟨hdis r (List.mem_cons_of_mem _ hr), fun h1 => ?_⟩
      exact hnd.1 (h1 ▸ List.mem_map_of_mem Prod.fst hr)
    simp only [List.foldl_cons]
    rw [ih (targetStep m t) hdis2 hnd.2, hstep]
    simp

theorem foldl_positionStep_eq (poss : List Position) :
    ∀ m : List (String × PositionAdjustment),
      (m.map Prod.fst).Nodup → (poss.map Position.symbol).Nodup →
      poss.foldl positionStep m =
        m.map (applyPositions poss) ++
          ((poss.filter fun q => decide (q.symbol ∉ m.map Prod.fst)).map fun q =>
            (q.symbol, { current_value := q.current_value, target := 0,
                         ignored := q.ignored })) := by
  induction poss with
  | nil =>
    intro m _ _
    have h1 : m.map (applyPositions []) = m.map id :=
      List.map_congr_left fun e _ => rfl
    simp [h1]
  | cons p rest ih =>
    intro m hndm hndp
    simp only [List.map_cons, List.nodup_cons] at hndp
    by_cases hc : p.symbol ∈ m.map Prod.fst
    · have hstep : positionStep m p =
          m.map fun e => if e.1 = p.symbol then
            (e.1, { e.2 with current_value := p.current_value }) else e :=
        updateOrInsert_of_nodup_mem m p.symbol _ _ hndm hc
      have hkeys : ((m.map fun e => if e.1 = p.symbol then
          (e.1, { e.2 with current_value := p.current_value }) else e).map Prod.fst)
            = m.map Prod.fst := by
        rw [List.map_map]
        apply List.map_congr_left
        intro e _
        by_cases h1 : e.1 = p.symbol <;> simp [h1]
      have hndm2 : ((positionStep m p).map Prod.fst).Nodup := by
        rw [hstep, hkeys]; exact hndm
      simp only [List.foldl_cons]
      rw [ih (positionStep m p) hndm2 hndp.2]
      have hmap : (positionStep m p).map (applyPositions rest) =
          m.map (applyPositions (p :: rest)) := by
        rw [hstep, List.map_map]
        apply List.map_congr_left
        intro e he
        by_cases h1 : e.1 = p.symbol
        · have hfr : rest.find? (fun q => q.symbol == e.1) = none := by
            rw [List.find?_eq_none]
            intro q hq hqe
            rw [beq_iff_eq] at hqe
            exact hndp.1 (by rw [← h1, ← hqe]; exact List.mem_map_of_mem _ hq)
          have hfp : (p :: rest).find? (fun q => q.symbol == e.1) = some p :=
            List.find?_cons_of_pos _ (by rw [beq_iff_eq, h1])
          simp only [Function.comp, if_pos h1, applyPositions, hfr, hfp]
        · have hhead : ((fun q : Position => q.symbol == e.1) p) = false := by
            simp only [beq_eq_false_iff_ne, ne_eq]
            intro hpe
            exact h1 hpe.symm
          have hcons : (p :: rest).find? (fun q => q.symbol == e.1) =
              rest.find? (fun q => q.symbol == e.1) :=
            List.find?_cons_of_neg _ (by simp [hhead])
          simp only [Function.comp, if_neg h1, applyPositions, hcons]
      have hfilL : (rest.filter fun q =>
            decide (q.symbol ∉ (positionStep m p).map Prod.fst)) =
          rest.filter fun q => decide (q.symbol ∉ m.map Prod.fst) := by
        apply List.filter_congr
        intro q _
        rw [hstep, hkeys]
      have hfilR : ((p :: rest).filter fun q =>
            decide (q.symbol ∉ m.map Prod.fst)) =
          rest.filter fun q => decide (q.symbol ∉ m.map Prod.fst) := by
        rw [List.filter_cons]
        simp [hc]
      rw [hmap, hfilL, hfilR]
    · have hstep : positionStep m p =
          m ++ [(p.symbol, { current_value := p.current_value, target := 0,
                             ignored := p.ignored })] :=
        updateOrInsert_of_not_mem m p.symbol _ _ hc
      have hndm2 : ((positionStep m p).map Prod.fst).Nodup := by
        rw [hstep]
        simp only [List.map_append, List.map_cons, List.map_nil]
        rw [List.nodup_append]
        refine ⟨hndm, List.nodup_singleton _, ?_⟩
        intro a ha hb
        simp only [List.mem_singleton] at hb
        exact hc (hb ▸ ha)
      simp only [List.foldl_cons]
      rw [ih (positionStep m p) hndm2 hndp.2]
      have hap : applyPositions rest (p.symbol,
          { current_value := p.current_value, target := 0,
                 ignored := p.ignored }) =
          (p.symbol, { current_value := p.current_value, target := 0,
                       ignored := p.ignored }) := by
        unfold applyPositions
        rw [List.find?_eq_none.mpr]
        intro q hq hqe
        rw [beq_iff_eq] at hqe
        have hqe2 : q.symbol = p.symbol := hqe
        exact hndp.1 (hqe2 ▸ List.mem_map_of_mem _ hq)
      have hmap : m.map (applyPositions rest) =
          m.map (applyPositions (p :: rest)) := by
        apply List.map_congr_left
        intro e he
        have h1 : e.1 ≠ p.symbol :=
          fun h => hc (h ▸ List.mem_map_of_mem Prod.fst he)
        unfold applyPositions
        rw [List.find?_cons_of_neg _ (by
          simp only [beq_eq_false_iff_ne, ne_eq, Bool.not_eq_true]
          intro hpe
          exact h1 hpe.symm)]
      have hfilL : (rest.filter fun q =>
            decide (q.symbol ∉ (positionStep m p).map Prod.fst)) =
          rest.filter fun q => decide (q.symbol ∉ m.map Prod.fst) := by
        apply List.filter_congr
        intro q hq
        have hqp : q.symbol ≠ p.symbol :=
          fun h => hndp.1 (h ▸ List.mem_map_of_mem _ hq)
        rw [hstep]
        simp [hqp]
      have hfilR : ((p :: rest).filter fun q =>
            decide (q.symbol ∉ m.map Prod.fst)) =
          p :: (rest.filter fun q => decide (q.symbol ∉ m.map Prod.fst)) := by
        rw [List.filter_cons]
        simp [hc]
      rw [hfilL, hfilR, hstep, List.map_append, List.map_cons, List.map_nil,
        hap, hmap]
      simp

/-- Full characterization of the working map for key-unique targets and
symbol-unique holdings: one entry per target symbol (declared percent,
observed or zero current value, never ignored) followed by one entry per
non-target holding (observed value, zero percent, the holding's ignored
flag). -/
theorem buildAdjustments_eq (tgts : List (String × Percent))
    (poss : List Position) (hT : (tgts.map Prod.fst).Nodup)
    (hP : (poss.map Position.symbol).Nodup) :
    buildAdjustments tgts poss =
      (tgts.map fun t => (t.1,
        { current_value := currentOf poss t.1, target := t.2,
          ignored := false })) ++
      ((poss.filter fun q => decide (q.symbol ∉ tgts.map Prod.fst)).map fun q =>
        (q.symbol, { current_value := q.current_value, target := 0,
                     ignored := q.ignored })) := by
  unfold buildAdjustments
  rw [foldl_targetStep_eq tgts [] (by simp) hT]
  rw [List.nil_append]
  have hkeys : ((tgts.map fun t => ((t.1 : String),
      ({ current_value := 0, target := t.2, ignored := false } :
        PositionAdjustment))).map Prod.fst) = tgts.map Prod.fst := by
    rw [List.map_map]
    apply List.map_congr_left
    intro t _
    rfl
  rw [foldl_positionStep_eq poss _ (by rw [hkeys]; exact hT) hP]
  congr 1
  · rw [List.map_map]
    apply List.map_congr_left
    intro t _
    simp only [Function.comp, applyPositions, currentOf]
    cases poss.find? fun p => p.symbol == t.1 with
    | none => rfl
    | some p => rfl
  · apply congrArg
    apply List.filter_congr
    intro q _
    rw [hkeys]

/-- The ignored-target bail of `adjust_allocations` (target.rs line 87)
never fires. -/
theorem guard_none (tgts : List (String × Percent)) (poss : List Position) :
    (buildAdjustments tgts poss).find?
      (fun e => e.2.ignored && !(decide (e.2.target = 0))) = none := by
  rw [List.find?_eq_none]
  intro e he
  by_cases hig : e.2.ignored = true
  · have := buildAdjustments_ignored_target tgts poss e he hig
    simp [hig, this]
  · have : e.2.ignored = false := by simpa using hig
    simp [this]

theorem adjust_ok_of (self : AllocationTargets) (balance : AccountBalance)
    (core : Position)
    (hfind : balance.positions.find? (fun pos =>
      pos.symbol == self.core_position.symbol
        && balance.account_number == self.account_number) = some core)
    (hcore : core.is_core = true)
    (hnotin : (self.targets.any fun t => t.1 == core.symbol) = false)
    (hnn : ¬ totalValue (buildAdjustments self.targets balance.positions)
        - self.core_position.minimum < 0) :
    self.adjust_allocations balance = Except.ok (adjustActions self balance) := by
  unfold AllocationTargets.adjust_allocations
  rw [hfind]
  simp [hcore, hnotin, guard_none, hnn]

theorem adjust_ok_inv (self : AllocationTargets) (balance : AccountBalance)
    (acts : List (String × Action))
    (h : self.adjust_allocations balance = Except.ok acts) :
    ∃ core,
      balance.positions.find? (fun pos =>
        pos.symbol == self.core_position.symbol
          && balance.account_number == self.account_number) = some core ∧
      core.is_core = true ∧
      (self.targets.any fun t => t.1 == core.symbol) = false ∧
      ¬ totalValue (buildAdjustments self.targets balance.positions)
          - self.core_position.minimum < 0 ∧
      acts = adjustActions self balance := by
  unfold AllocationTargets.adjust_allocations at h
  split at h
  · exact absurd h (by simp)
  next core hfind =>
    split at h
    next hcore => exact absurd h (by simp)
    next hcore =>
      split at h
      next hany => exact absurd h (by simp)
      next hany =>
        split at h
        next e heq => exact absurd h (by simp)
        next hguard =>
          split at h
          next hneg => exact absurd h (by simp)
          next hneg =>
            refine ⟨core, hfind, ?_, ?_, hneg, ?_⟩
            · have h2 : (!core.is_core) = false := Bool.eq_false_iff.mpr hcore
              simpa using h2
            · exact Bool.eq_false_iff.mpr hany
            · have := h.symm
              simpa using this

theorem find?_eq_of_nodup (poss : List Position) (pos : Position) (s : String)
    (hnd : (poss.map Position.symbol).Nodup) (hmem : pos ∈ poss)
    (hsym : pos.symbol = s) :
    poss.find? (fun q => q.symbol == s) = some pos := by
  induction poss with
  | nil => simp at hmem
  | cons q rest ih =>
    simp only [List.map_cons, List.nodup_cons] at hnd
    rcases List.mem_cons.mp hmem with rfl | hmem2
    · exact List.find?_cons_of_pos _ (by rw [beq_iff_eq]; exact hsym)
    · have hq : q.symbol ≠ s := by
        intro hqs
        exact hnd.1 (by rw [hqs, ← hsym]; exact List.mem_map_of_mem _ hmem2)
      have hcons : (q :: rest).find? (fun r => r.symbol == s) =
          rest.find? (fun r => r.symbol == s) :=
        List.find?_cons_of_neg _ (by simp [hq])
      rw [hcons, ih hnd.2 hmem2]

theorem symbol_inj_of_nodup (poss : List Position)
    (hnd : (poss.map Position.symbol).Nodup) (a b : Position)
    (ha : a ∈ poss) (hb : b ∈ poss) (hab : a.symbol = b.symbol) : a = b :=
  List.inj_on_of_nodup_map hnd ha hb hab

theorem totalValue_cons (e : String × PositionAdjustment)
    (l : List (String × PositionAdjustment)) :
    totalValue (e :: l) =
      (if e.2.ignored then 0 else e.2.current_value) + totalValue l := by
  by_cases h : e.2.ignored <;> simp [totalValue, List.filter_cons, h]

/-- Dropping all entries of one symbol from the working map does not change
the total when every entry of that symbol is ignored: an ignored value is
excluded from the total. -/
theorem totalValue_filter_key (A : List (String × PositionAdjustment))
    (s : String) (h : ∀ e ∈ A, e.1 = s → e.2.ignored = true) :
    totalValue (A.filter fun e => !(e.1 == s)) = totalValue A := by
  induction A with
  | nil => rfl
  | cons e rest ih =>
    have ih2 := ih fun x hx => h x (List.mem_cons_of_mem _ hx)
    rw [List.filter_cons]
    by_cases hes : e.1 = s
    · have hig : e.2.ignored = true := h e (List.mem_cons_self _ _) hes
      simp [hes, totalValue_cons, hig, ih2]
    · simp [hes, totalValue_cons, ih2]

set_option maxRecDepth 8000

/-! Concrete inputs used by witnesses and counterexamples.  `exPolicy`,
`exBalance` and `exActs` are the end-to-end scenario of the spec (account
A1, core CASH with minimum 500, targets VTI 60 / BND 40). -/

def symCASH : String := "CASH"

def symVTI : String := "VTI"

def symBND : String := "BND"

def acctA1 : String := "A1"

def exPolicy : AllocationTargets :=
  { account_number := acctA1
    core_position := { symbol := symCASH, minimum := 500 }
    targets := [(symVTI, 60), (symBND, 40)] }

def exBalance : AccountBalance :=
  { account_number := acctA1
    positions :=
      [{ symbol := symCASH, current_value := 1000, is_core := true,
         ignored := false },
       { symbol := symVTI, current_value := 4000, is_core := false,
         ignored := false },
       { symbol := symBND, current_value := 5000, is_core := false,
         ignored := false }] }

def exActs : List (String × Action) :=
  [(symVTI, Action.Buy 1700), (symBND, Action.Sell 1200),
    (symCASH, Action.Sell 500)]

/-- Claim C6: constructing an AllocationTargets from raw configuration
fields fails whenever the target percents sum to anything other than
exactly 100, and succeeds whenever the sum is exactly 100 (in the exact
arithmetic of this embedding; sums such as 60 + 40 or 33.3 + 33.3 + 33.4
are exactly 100 here as in the cited examples). -/
theorem build_succeeds_iff_sum_100 (b : AllocationTargetsBuilder) :
    buildOk b = true ↔ (b.allocations.map fun t => t.2).sum = 100 := by
  unfold buildOk AllocationTargetsBuilder.build AllocationTargetsBuilder.validate
  by_cases h : (b.allocations.map fun t => t.2).sum = 100 <;> simp [h]

/-- Claim C10: when the balance's account number differs from the policy's,
the core lookup of `adjust_allocations` fails for every position, even one
whose symbol equals the core symbol with the core flag set, because the
search predicate also requires the account numbers to match. -/
theorem mismatched_account_core_not_found (self : AllocationTargets)
    (balance : AccountBalance)
    (hne : balance.account_number ≠ self.account_number) :
    self.adjust_allocations balance = Except.error AdjustError.coreNotFound := by
  unfold AllocationTargets.adjust_allocations
  have hf : balance.positions.find? (fun pos =>
      pos.symbol == self.core_position.symbol
        && balance.account_number == self.account_number) = none := by
    rw [List.find?_eq_none]
    intro pos _
    simp [hne]
  rw [hf]

def cB10 : AccountBalance :=
  { account_number := "B9"
    positions :=
      [{ symbol := symCASH, current_value := 1000, is_core := true,
         ignored := false }] }

/-- Witness for C10: the balance holds a position with the core symbol and
the core flag set, yet the mismatched account number alone yields the
core-not-found error. -/
theorem mismatched_account_core_not_found_witness :
    AllocationTargets.adjust_allocations exPolicy cB10 =
      Except.error AdjustError.coreNotFound :=
  mismatched_account_core_not_found exPolicy cB10 (by decide)

/-- Claim C7: once the core-position preconditions pass, a strictly
negative `to_distribute = total_value - core minimum` makes
`adjust_allocations` fail with the insufficient-funds error, so no action
list is produced. -/
theorem insufficient_funds_failure (self : AllocationTargets)
    (balance : AccountBalance) (core : Position)
    (hfind : balance.positions.find? (fun pos =>
      pos.symbol == self.core_position.symbol
        && balance.account_number == self.account_number) = some core)
    (hcore : core.is_core = true)
    (hnotin : (self.targets.any fun t => t.1 == core.symbol) = false)
    (hneg : totalValue (buildAdjustments self.targets balance.positions)
        - self.core_position.minimum < 0) :
    self.adjust_allocations balance =
      Except.error AdjustError.insufficientFunds := by
  unfold AllocationTargets.adjust_allocations
  rw [hfind]
  simp [hcore, hnotin, guard_none, hneg]

def cP7 : AllocationTargets :=
  { account_number := acctA1
    core_position := { symbol := symCASH, minimum := 1000 }
    targets := [(symVTI, 100)] }

def cB7 : AccountBalance :=
  { account_number := acctA1
    positions :=
      [{ symbol := symCASH, current_value := 10, is_core := true,
         ignored := false }] }

/-- Witness for C7: total value 10 against core minimum 1000. -/
theorem insufficient_funds_failure_witness :
    AllocationTargets.adjust_allocations cP7 cB7 =
      Except.error AdjustError.insufficientFunds := by
  apply insufficient_funds_failure cP7 cB7
    { symbol := symCASH, current_value := 10, is_core := true, ignored := false }
  · rfl
  · rfl
  · rfl
  · have he : totalValue (buildAdjustments cP7.targets cB7.positions) = 10 := by
      with_unfolding_all rfl
    rw [he]
    with_unfolding_all decide

def symCORE : String := "CORE"

def symXYZ : String := "XYZ"

def symABC : String := "ABC"

def posXYZ : Position :=
  { symbol := symXYZ, current_value := 50, is_core := false, ignored := true }

def cP2 : AllocationTargets :=
  { account_number := acctA1
    core_position := { symbol := symCORE, minimum := 0 }
    targets := [(symXYZ, 100)] }

def cB2 : AccountBalance :=
  { account_number := acctA1
    positions :=
      [{ symbol := symCORE, current_value := 100, is_core := true,
         ignored := false },
       posXYZ] }

/-- Claim C2 (code bug evidence): symbol XYZ is a policy target and its
holding is marked ignored, yet `adjust_allocations` silently returns an
action list that rebalances XYZ instead of the error the spec requires.
The positions loop `and_modify` (target.rs line 77) only overwrites
`current_value` and drops the holding's ignored flag for symbols already
present from the targets loop, so the ignored-target bail at target.rs
line 87 can never fire. -/
theorem ignored_target_symbol_accepted :
    (symXYZ, (100 : Percent)) ∈ cP2.targets ∧
    posXYZ ∈ cB2.positions ∧ posXYZ.ignored = true ∧
    AllocationTargets.adjust_allocations cP2 cB2 =
      Except.ok [(symXYZ, Action.Buy 100), (symCORE, Action.Sell 100)] := by
  refine ⟨by simp [cP2], by simp [cB2], rfl, ?_⟩
  with_unfolding_all rfl

def posABC : Position :=
  { symbol := symABC, current_value := 50, is_core := false, ignored := true }

def cP1 : AllocationTargets :=
  { account_number := acctA1
    core_position := { symbol := symCORE, minimum := 0 }
    targets := [(symABC, 100)] }

def cB1 : AccountBalance :=
  { account_number := acctA1
    positions :=
      [{ symbol := symCORE, current_value := 100, is_core := true,
         ignored := false },
       posABC] }

/-- Counterexample to claim C1 as stated: position ABC is marked ignored
while its symbol is a key of the policy targets; `adjust_allocations`
succeeds, the 50 of ABC is still counted in the total (150, not 100), and
the action emitted for ABC is Buy, not Ignore. -/
theorem ignored_position_excluded_cex :
    posABC ∈ cB1.positions ∧ posABC.ignored = true ∧
    (symABC, (100 : Percent)) ∈ cP1.targets ∧
    totalValue (buildAdjustments cP1.targets cB1.positions) = 150 ∧
    AllocationTargets.adjust_allocations cP1 cB1 =
      Except.ok [(symABC, Action.Buy 100), (symCORE, Action.Sell 100)] ∧
    (symABC, Action.Ignore) ∉
      [(symABC, Action.Buy 100), (symCORE, Action.Sell 100)] := by
  refine ⟨by simp [cB1], rfl, by simp [cP1], by with_unfolding_all rfl,
    by with_unfolding_all rfl, by decide⟩

/-- Claim C8: `set_ignored` flips `ignored` to true exactly on the
positions whose symbol case-insensitively matches some entry of the list,
leaves every other field and every non-matching position unchanged,
preserves the account number and the number of positions, and, being a
total function, cannot fail when a listed symbol matches nothing. -/
theorem set_ignored_frame (b : AccountBalance) (syms : List String) (i : ℕ)
    (p : Position) (hp : b.positions[i]? = some p) :
    (b.set_ignored syms).account_number = b.account_number ∧
    (b.set_ignored syms).positions.length = b.positions.length ∧
    ∃ q, (b.set_ignored syms).positions[i]? = some q ∧
      q.symbol = p.symbol ∧ q.current_value = p.current_value ∧
      q.is_core = p.is_core ∧
      (q.ignored = true ↔ (p.ignored = true ∨
        (syms.any fun s => eqIgnoreAsciiCase s p.symbol) = true)) := by
  refine ⟨rfl, by simp [AccountBalance.set_ignored], ?_⟩
  by_cases hm : (syms.any fun s => eqIgnoreAsciiCase s p.symbol) = true
  · refine ⟨{ p with ignored := true }, ?_, rfl, rfl, rfl, by simp [hm]⟩
    show (b.positions.map fun pos =>
        if syms.any (fun s => eqIgnoreAsciiCase s pos.symbol) then
          { pos with ignored := true }
        else pos)[i]? = some { p with ignored := true }
    rw [List.getElem?_map, hp]
    exact congrArg some (if_pos hm)
  · have hm2 : (syms.any fun s => eqIgnoreAsciiCase s p.symbol) = false :=
      Bool.eq_false_iff.mpr hm
    refine ⟨p, ?_, rfl, rfl, rfl, by simp [hm2]⟩
    show (b.positions.map fun pos =>
        if syms.any (fun s => eqIgnoreAsciiCase s pos.symbol) then
          { pos with ignored := true }
        else pos)[i]? = some p
    rw [List.getElem?_map, hp]
    exact congrArg some (if_neg hm)

def ignoreListBnd : List String := ["bnd"]

/-- Witness for C8 at the spec scenario: the list entry bnd matches the
BND position case-insensitively; its other fields and the other positions
are untouched. -/
theorem set_ignored_frame_witness :
    (exBalance.set_ignored ignoreListBnd).account_number =
        exBalance.account_number ∧
    (exBalance.set_ignored ignoreListBnd).positions.length =
        exBalance.positions.length ∧
    ∃ q, (exBalance.set_ignored ignoreListBnd).positions[2]? = some q ∧
      q.symbol = (exBalance.positions.get ⟨2, by decide⟩).symbol ∧
      q.current_value = (exBalance.positions.get ⟨2, by decide⟩).current_value ∧
      q.is_core = (exBalance.positions.get ⟨2, by decide⟩).is_core ∧
      (q.ignored = true ↔ ((exBalance.positions.get ⟨2, by decide⟩).ignored = true ∨
        (ignoreListBnd.any fun s =>
          eqIgnoreAsciiCase s (exBalance.positions.get ⟨2, by decide⟩).symbol) = true)) :=
  set_ignored_frame exBalance ignoreListBnd 2
    (exBalance.positions.get ⟨2, by decide⟩) (by rfl)

theorem mem_buildAdjustments_of_nontarget (tgts : List (String × Percent))
    (poss : List Position) (hT : (tgts.map Prod.fst).Nodup)
    (hP : (poss.map Position.symbol).Nodup) (pos : Position)
    (hmem : pos ∈ poss) (hnt : pos.symbol ∉ tgts.map Prod.fst) :
    ((pos.symbol, { current_value := pos.current_value, target := 0,
                    ignored := pos.ignored }) :
      String × PositionAdjustment) ∈ buildAdjustments tgts poss := by
  rw [buildAdjustments_eq tgts poss hT hP]
  apply List.mem_append_right
  apply List.mem_map_of_mem
  exact List.mem_filter.mpr ⟨hmem, by simp [hnt]⟩

/-- Claim C4: in a successful run, each non-core non-ignored entry of the
working map is classified by the exact sign of
`to_distribute * (target / 100) - current_value`: strictly positive gives
Buy of that delta, strictly negative gives Sell of its negation, exactly
zero gives Nothing, with no epsilon tolerance. -/
theorem noncore_action_classification (self : AllocationTargets)
    (balance : AccountBalance) (acts : List (String × Action)) (s : String)
    (adj : PositionAdjustment)
    (h : self.adjust_allocations balance = Except.ok acts)
    (hmem : (s, adj) ∈ buildAdjustments self.targets balance.positions)
    (hs : s ≠ self.core_position.symbol) (hig : adj.ignored = false) :
    (0 < (totalValue (buildAdjustments self.targets balance.positions)
        - self.core_position.minimum) * (adj.target / 100) - adj.current_value →
      (s, Action.Buy ((totalValue (buildAdjustments self.targets balance.positions)
        - self.core_position.minimum) * (adj.target / 100) - adj.current_value))
        ∈ acts) ∧
    ((totalValue (buildAdjustments self.targets balance.positions)
        - self.core_position.minimum) * (adj.target / 100) - adj.current_value < 0 →
      (s, Action.Sell (-((totalValue (buildAdjustments self.targets balance.positions)
        - self.core_position.minimum) * (adj.target / 100) - adj.current_value)))
        ∈ acts) ∧
    ((totalValue (buildAdjustments self.targets balance.positions)
        - self.core_position.minimum) * (adj.target / 100) - adj.current_value = 0 →
      (s, Action.Nothing) ∈ acts) := by
  obtain ⟨core, hfind, hcore, hany, hnn, hacts⟩ := adjust_ok_inv self balance acts h
  subst hacts
  have hmem2 := List.mem_map_of_mem (fun e : String × PositionAdjustment =>
    (e.1, positionAction self
      (totalValue (buildAdjustments self.targets balance.positions)
        - self.core_position.minimum) e.1 e.2)) hmem
  dsimp only at hmem2
  refine ⟨fun hpos => ?_, fun hneg => ?_, fun hz => ?_⟩
  · have hact : positionAction self
        (totalValue (buildAdjustments self.targets balance.positions)
          - self.core_position.minimum) s adj =
        Action.Buy ((totalValue (buildAdjustments self.targets balance.positions)
          - self.core_position.minimum) * (adj.target / 100) - adj.current_value) := by
      unfold positionAction
      rw [if_neg (by simp [hig]), if_neg hs]
      dsimp only
      rw [if_pos hpos, abs_of_pos hpos]
    rw [hact] at hmem2
    exact hmem2
  · have hact : positionAction self
        (totalValue (buildAdjustments self.targets balance.positions)
          - self.core_position.minimum) s adj =
        Action.Sell (-((totalValue (buildAdjustments self.targets balance.positions)
          - self.core_position.minimum) * (adj.target / 100) - adj.current_value)) := by
      unfold positionAction
      rw [if_neg (by simp [hig]), if_neg hs]
      dsimp only
      rw [if_neg (by exact not_lt.mpr (le_of_lt hneg)), if_pos hneg, abs_of_neg hneg]
    rw [hact] at hmem2
    exact hmem2
  · have hact : positionAction self
        (totalValue (buildAdjustments self.targets balance.positions)
          - self.core_position.minimum) s adj = Action.Nothing := by
      unfold positionAction
      rw [if_neg (by simp [hig]), if_neg hs]
      dsimp only
      rw [if_neg (by rw [hz]; exact lt_irrefl 0), if_neg (by rw [hz]; exact lt_irrefl 0)]
    rw [hact] at hmem2
    exact hmem2

/-- Claim C5: in a successful run, the non-ignored core position's action
is Sell of the excess over the minimum when its value strictly exceeds the
minimum, and Nothing when the value equals the minimum exactly. -/
theorem core_action_sell_or_nothing (self : AllocationTargets)
    (balance : AccountBalance) (acts : List (String × Action)) (pos : Position)
    (hT : (self.targets.map Prod.fst).Nodup)
    (hP : (balance.positions.map Position.symbol).Nodup)
    (h : self.adjust_allocations balance = Except.ok acts)
    (hmem : pos ∈ balance.positions)
    (hsym : pos.symbol = self.core_position.symbol)
    (hig : pos.ignored = false) :
    (self.core_position.minimum < pos.current_value →
      (pos.symbol,
        Action.Sell (pos.current_value - self.core_position.minimum)) ∈ acts) ∧
    (pos.current_value = self.core_position.minimum →
      (pos.symbol, Action.Nothing) ∈ acts) := by
  obtain ⟨core, hfind, hcore, hany, hnn, hacts⟩ := adjust_ok_inv self balance acts h
  subst hacts
  have hpred := List.find?_some hfind
  have hcsym : core.symbol = self.core_position.symbol := by
    simp only [Bool.and_eq_true, beq_iff_eq] at hpred
    exact hpred.1
  have hnt : pos.symbol ∉ self.targets.map Prod.fst := by
    intro hin
    rcases List.mem_map.mp hin with ⟨t, ht, htq⟩
    have hfalse := List.any_eq_false.mp hany t ht
    rw [beq_iff_eq] at hfalse
    exact hfalse (by rw [hcsym, ← hsym, htq])
  have hentry := mem_buildAdjustments_of_nontarget self.targets balance.positions
    hT hP pos hmem hnt
  have hmem2 := List.mem_map_of_mem (fun e : String × PositionAdjustment =>
    (e.1, positionAction self
      (totalValue (buildAdjustments self.targets balance.positions)
        - self.core_position.minimum) e.1 e.2)) hentry
  dsimp only at hmem2
  constructor
  · intro hlt
    have hact : positionAction self
        (totalValue (buildAdjustments self.targets balance.positions)
          - self.core_position.minimum) pos.symbol
        { current_value := pos.current_value, target := 0,
          ignored := pos.ignored } =
        Action.Sell (pos.current_value - self.core_position.minimum) := by
      unfold positionAction
      rw [if_neg (by simp [hig]), if_pos hsym, if_pos hlt]
    rw [hact] at hmem2
    exact hmem2
  · intro heq
    have hact : positionAction self
        (totalValue (buildAdjustments self.targets balance.positions)
          - self.core_position.minimum) pos.symbol
        { current_value := pos.current_value, target := 0,
          ignored := pos.ignored } = Action.Nothing := by
      unfold positionAction
      rw [if_neg (by simp [hig]), if_pos hsym,
        if_neg (by rw [heq]; exact lt_irrefl _),
        if_neg (by rw [heq]; exact lt_irrefl _)]
    rw [hact] at hmem2
    exact hmem2

/-- Witness for C4 at the spec scenario: for VTI the delta
9500 * (60 / 100) - 4000 = 1700 is strictly positive, so Buy 1700 is
emitted. -/
theorem noncore_action_classification_witness :
    (symVTI, Action.Buy 1700) ∈ exActs := by
  have hBA : buildAdjustments exPolicy.targets exBalance.positions =
      [(symVTI, { current_value := 4000, target := 60, ignored := false }),
       (symBND, { current_value := 5000, target := 40, ignored := false }),
       (symCASH, { current_value := 1000, target := 0, ignored := false })] := by
    rfl
  have happ := (noncore_action_classification exPolicy exBalance exActs symVTI
    { current_value := 4000, target := 60, ignored := false }
    (by with_unfolding_all rfl)
    (by rw [hBA]; simp)
    (by decide) rfl).1
  have he : (totalValue (buildAdjustments exPolicy.targets exBalance.positions)
      - exPolicy.core_position.minimum) *
      (({ current_value := 4000, target := 60, ignored := false } :
        PositionAdjustment).target / 100) -
      ({ current_value := 4000, target := 60, ignored := false } :
        PositionAdjustment).current_value = 1700 := by
    with_unfolding_all rfl
  have hpos : 0 < (totalValue (buildAdjustments exPolicy.targets
      exBalance.positions) - exPolicy.core_position.minimum) *
      (({ current_value := 4000, target := 60, ignored := false } :
        PositionAdjustment).target / 100) -
      ({ current_value := 4000, target := 60, ignored := false } :
        PositionAdjustment).current_value := by
    rw [he]
    with_unfolding_all decide
  exact he ▸ happ hpos

/-- Witness for C5 at the spec scenario: core CASH holds 1000 against a
minimum of 500, so Sell (1000 - 500) is emitted. -/
theorem core_action_sell_or_nothing_witness :
    (symCASH, Action.Sell (1000 - 500)) ∈ exActs := by
  have h := (core_action_sell_or_nothing exPolicy exBalance exActs
    { symbol := symCASH, current_value := 1000, is_core := true,
      ignored := false }
    (by decide) (by decide) (by with_unfolding_all rfl)
    (by simp [exBalance]) rfl rfl).1 (by with_unfolding_all decide)
  exact h

/-- Claim C9: when the core lookup and flag preconditions hold, the core is
not ignored and not a target, and `to_distribute` is non-negative, a core
value strictly below the minimum does not fail the computation:
`adjust_allocations` succeeds and emits Buy (minimum - current value) for
the core symbol. -/
theorem under_minimum_core_buys (self : AllocationTargets)
    (balance : AccountBalance) (pos : Position)
    (hT : (self.targets.map Prod.fst).Nodup)
    (hP : (balance.positions.map Position.symbol).Nodup)
    (hacct : balance.account_number = self.account_number)
    (hmem : pos ∈ balance.positions)
    (hsym : pos.symbol = self.core_position.symbol)
    (hcore : pos.is_core = true) (hig : pos.ignored = false)
    (hnotin : (self.targets.any fun t =>
      t.1 == self.core_position.symbol) = false)
    (hnn : ¬ totalValue (buildAdjustments self.targets balance.positions)
        - self.core_position.minimum < 0)
    (hlt : pos.current_value < self.core_position.minimum) :
    self.adjust_allocations balance = Except.ok (adjustActions self balance) ∧
    (pos.symbol, Action.Buy (self.core_position.minimum - pos.current_value)) ∈
      adjustActions self balance := by
  have hfind0 : balance.positions.find?
      (fun q => q.symbol == self.core_position.symbol) = some pos :=
    find?_eq_of_nodup balance.positions pos _ hP hmem hsym
  have hpexp : (fun q : Position => q.symbol == self.core_position.symbol
      && balance.account_number == self.account_number) =
      (fun q : Position => q.symbol == self.core_position.symbol) := by
    funext q
    rw [hacct]
    simp
  have hfind : balance.positions.find? (fun q =>
      q.symbol == self.core_position.symbol
        && balance.account_number == self.account_number) = some pos := by
    rw [hpexp, hfind0]
  have hnotin2 : (self.targets.any fun t => t.1 == pos.symbol) = false := by
    rw [hsym]
    exact hnotin
  refine ⟨adjust_ok_of self balance pos hfind hcore hnotin2 hnn, ?_⟩
  have hnt : pos.symbol ∉ self.targets.map Prod.fst := by
    intro hin
    rcases List.mem_map.mp hin with ⟨t, ht, htq⟩
    have hfalse := List.any_eq_false.mp hnotin t ht
    rw [beq_iff_eq] at hfalse
    exact hfalse (by rw [← hsym, htq])
  have hentry := mem_buildAdjustments_of_nontarget self.targets
    balance.positions hT hP pos hmem hnt
  have hmem2 := List.mem_map_of_mem (fun e : String × PositionAdjustment =>
    (e.1, positionAction self
      (totalValue (buildAdjustments self.targets balance.positions)
        - self.core_position.minimum) e.1 e.2)) hentry
  dsimp only at hmem2
  have hact : positionAction self
      (totalValue (buildAdjustments self.targets balance.positions)
        - self.core_position.minimum) pos.symbol
      { current_value := pos.current_value, target := 0,
        ignored := pos.ignored } =
      Action.Buy (self.core_position.minimum - pos.current_value) := by
    unfold positionAction
    rw [if_neg (by simp [hig]), if_pos hsym,
      if_neg (by exact not_lt.mpr (le_of_lt hlt)), if_pos hlt]
  rw [hact] at hmem2
  exact hmem2

def exBalanceLow : AccountBalance :=
  { account_number := acctA1
    positions :=
      [{ symbol := symCASH, current_value := 100, is_core := true,
         ignored := false },
       { symbol := symVTI, current_value := 4000, is_core := false,
         ignored := false },
       { symbol := symBND, current_value := 5000, is_core := false,
         ignored := false }] }

/-- Witness for C9: core CASH holds 100 against a minimum of 500 and the
run still succeeds, emitting Buy (500 - 100) for CASH. -/
theorem under_minimum_core_buys_witness :
    AllocationTargets.adjust_allocations exPolicy exBalanceLow =
      Except.ok (adjustActions exPolicy exBalanceLow) ∧
    (symCASH, Action.Buy ((500 : Dollar) - 100)) ∈
      adjustActions exPolicy exBalanceLow := by
  have htv : totalValue (buildAdjustments exPolicy.targets
      exBalanceLow.positions) = 9100 := by
    with_unfolding_all rfl
  exact under_minimum_core_buys exPolicy exBalanceLow
    { symbol := symCASH, current_value := 100, is_core := true,
      ignored := false }
    (by decide) (by decide) rfl (by simp [exBalanceLow]) rfl rfl rfl
    (by decide) (by rw [htv]; with_unfolding_all decide)
    (by with_unfolding_all decide)

/-- Claim C1 (amended): in every successful run, a position marked ignored
whose symbol is not a key of the policy targets has its action forced to
Ignore, and its value is excluded from the total: dropping all entries of
its symbol from the working map leaves `total_value`, and hence
`to_distribute = total_value - minimum`, unchanged.  The original claim
additionally covered ignored positions whose symbol is a target key; the
counterexample shows the merge drops the ignored flag there. -/
theorem ignored_nontarget_excluded (self : AllocationTargets)
    (balance : AccountBalance) (acts : List (String × Action)) (pos : Position)
    (hT : (self.targets.map Prod.fst).Nodup)
    (hP : (balance.positions.map Position.symbol).Nodup)
    (h : self.adjust_allocations balance = Except.ok acts)
    (hmem : pos ∈ balance.positions) (hig : pos.ignored = true)
    (hnt : pos.symbol ∉ self.targets.map Prod.fst) :
    (pos.symbol, Action.Ignore) ∈ acts ∧
    totalValue ((buildAdjustments self.targets balance.positions).filter
        fun e => !(e.1 == pos.symbol)) =
      totalValue (buildAdjustments self.targets balance.positions) := by
  obtain ⟨core, hfind, hcore, hany, hnn, hacts⟩ := adjust_ok_inv self balance acts h
  subst hacts
  have hentry := mem_buildAdjustments_of_nontarget self.targets
    balance.positions hT hP pos hmem hnt
  constructor
  · have hmem2 := List.mem_map_of_mem (fun e : String × PositionAdjustment =>
      (e.1, positionAction self
        (totalValue (buildAdjustments self.targets balance.positions)
          - self.core_position.minimum) e.1 e.2)) hentry
    dsimp only at hmem2
    have hact : positionAction self
        (totalValue (buildAdjustments self.targets balance.positions)
          - self.core_position.minimum) pos.symbol
        { current_value := pos.current_value, target := 0,
          ignored := pos.ignored } = Action.Ignore := by
      unfold positionAction
      rw [if_pos hig]
    rw [hact] at hmem2
    exact hmem2
  · apply totalValue_filter_key
    intro e he hes
    rw [buildAdjustments_eq self.targets balance.positions hT hP] at he
    rcases List.mem_append.mp he with hl | hr
    · rcases List.mem_map.mp hl with ⟨t, ht, hte⟩
      exfalso
      apply hnt
      have hes2 : t.1 = pos.symbol := by rw [← hes, ← hte]
      exact hes2 ▸ List.mem_map_of_mem Prod.fst ht
    · rcases List.mem_map.mp hr with ⟨q, hq, hqe⟩
      have hq2 : q ∈ balance.positions := (List.mem_filter.mp hq).1
      have hqs : q.symbol = pos.symbol := by rw [← hes, ← hqe]
      have hqp : q = pos := symbol_inj_of_nodup balance.positions hP q pos
        hq2 hmem hqs
      rw [← hqe]
      show q.ignored = true
      rw [hqp]
      exact hig

def posIgn : Position :=
  { symbol := symXYZ, current_value := 250, is_core := false, ignored := true }

def exBalanceIgn : AccountBalance :=
  { account_number := acctA1
    positions :=
      [{ symbol := symCASH, current_value := 1000, is_core := true,
         ignored := false },
       { symbol := symVTI, current_value := 4000, is_core := false,
         ignored := false },
       { symbol := symBND, current_value := 5000, is_core := false,
         ignored := false },
       posIgn] }

def exActsIgn : List (String × Action) :=
  [(symVTI, Action.Buy 1700), (symBND, Action.Sell 1200),
    (symCASH, Action.Sell 500), (symXYZ, Action.Ignore)]

/-- Witness for the amended C1: the ignored non-target position XYZ gets
the Ignore action and contributes nothing to the total. -/
theorem ignored_nontarget_excluded_witness :
    (symXYZ, Action.Ignore) ∈ exActsIgn ∧
    totalValue ((buildAdjustments exPolicy.targets exBalanceIgn.positions).filter
        fun e => !(e.1 == symXYZ)) =
      totalValue (buildAdjustments exPolicy.targets exBalanceIgn.positions) := by
  have h := ignored_nontarget_excluded exPolicy exBalanceIgn exActsIgn posIgn
    (by decide) (by decide) (by with_unfolding_all rfl)
    (by simp [exBalanceIgn]) rfl (by decide)
  exact h

theorem sum_map_target_smul (l : List (String × PositionAdjustment)) (c : ℚ) :
    (l.map fun e => c * (e.2.target / 100)).sum =
      c * ((l.map fun e => e.2.target).sum / 100) := by
  induction l with
  | nil => simp
  | cons e rest ih =>
    simp only [List.map_cons, List.sum_cons, ih]
    ring

/-- Claim C3: for a key-unique policy whose percents sum to 100 and
holdings with no ignored position, on success the sum over all non-core
working-map entries of `desired_value = to_distribute * (target / 100)`
plus the core minimum equals `total_value` exactly in the rational
arithmetic of this embedding: rebalancing neither creates nor destroys
money. -/
theorem rebalancing_conserves_value (self : AllocationTargets)
    (balance : AccountBalance) (acts : List (String × Action))
    (hT : (self.targets.map Prod.fst).Nodup)
    (hP : (balance.positions.map Position.symbol).Nodup)
    (hsum : (self.targets.map fun t => t.2).sum = 100)
    (hnoig : ∀ pos ∈ balance.positions, pos.ignored = false)
    (h : self.adjust_allocations balance = Except.ok acts) :
    (((buildAdjustments self.targets balance.positions).filter
        fun e => !(e.1 == self.core_position.symbol)).map
      fun e => (totalValue (buildAdjustments self.targets balance.positions)
        - self.core_position.minimum) * (e.2.target / 100)).sum
      + self.core_position.minimum
    = totalValue (buildAdjustments self.targets balance.positions) := by
  obtain ⟨core, hfind, hcore, hany, hnn, hacts⟩ := adjust_ok_inv self balance acts h
  have hpred := List.find?_some hfind
  have hcsym : core.symbol = self.core_position.symbol := by
    simp only [Bool.and_eq_true, beq_iff_eq] at hpred
    exact hpred.1
  have hsum_t : (((buildAdjustments self.targets balance.positions).filter
      fun e => !(e.1 == self.core_position.symbol)).map
        fun e => e.2.target).sum = 100 := by
    rw [buildAdjustments_eq self.targets balance.positions hT hP,
      List.filter_append, List.map_append, List.sum_append]
    have hTfil : ((self.targets.map fun t => ((t.1 : String),
        ({ current_value := currentOf balance.positions t.1, target := t.2,
           ignored := false } : PositionAdjustment))).filter
        fun e => !(e.1 == self.core_position.symbol)) =
        self.targets.map fun t => (t.1,
          { current_value := currentOf balance.positions t.1, target := t.2,
            ignored := false }) := by
      apply List.filter_eq_self.mpr
      intro e he
      rcases List.mem_map.mp he with ⟨t, ht, hte⟩
      have hfalse := List.any_eq_false.mp hany t ht
      rw [beq_iff_eq] at hfalse
      rw [hcsym] at hfalse
      rw [← hte]
      simp [hfalse]
    have hTsum : ((self.targets.map fun t => ((t.1 : String),
        ({ current_value := currentOf balance.positions t.1, target := t.2,
           ignored := false } : PositionAdjustment))).map
          fun e => e.2.target).sum = 100 := by
      rw [List.map_map]
      have hcomp : ((fun e : String × PositionAdjustment => e.2.target) ∘
          fun t : String × Percent => ((t.1 : String),
            ({ current_value := currentOf balance.positions t.1, target := t.2,
               ignored := false } : PositionAdjustment))) =
          fun t : String × Percent => t.2 := funext fun t => rfl
      rw [hcomp]
      exact hsum
    have hPsum : ((((balance.positions.filter fun q =>
        decide (q.symbol ∉ self.targets.map Prod.fst)).map fun q =>
          ((q.symbol : String), ({ current_value := q.current_value,
                                   target := 0,
                                   ignored := q.ignored } :
            PositionAdjustment))).filter
        fun e => !(e.1 == self.core_position.symbol)).map
          fun e => e.2.target).sum = 0 := by
      apply List.sum_eq_zero
      intro x hx
      rcases List.mem_map.mp hx with ⟨e, he, hex⟩
      rcases List.mem_map.mp (List.mem_filter.mp he).1 with ⟨q, hq, hqe⟩
      rw [← hex, ← hqe]
    rw [hTfil, hTsum, hPsum]
    norm_num
  rw [sum_map_target_smul, hsum_t]
  norm_num

/-- Witness for C3 at the spec scenario: 9500 * 0.6 + 9500 * 0.4 + 500
equals the total 10000. -/
theorem rebalancing_conserves_value_witness :
    (((buildAdjustments exPolicy.targets exBalance.positions).filter
        fun e => !(e.1 == exPolicy.core_position.symbol)).map
      fun e => (totalValue (buildAdjustments exPolicy.targets
          exBalance.positions) - exPolicy.core_position.minimum) *
        (e.2.target / 100)).sum
      + exPolicy.core_position.minimum
    = totalValue (buildAdjustments exPolicy.targets exBalance.positions) :=
  rebalancing_conserves_value exPolicy exBalance exActs
    (by decide) (by decide) (by with_unfolding_all rfl) (by decide)
    (by with_unfolding_all rfl)

end InvestmentAdjuster
